import Mathlib

/-!
Verification of the PTensor-to-Dist rewrite pass (PTensorDist.cpp).

The development has three layers:
1. an arithmetic model of the range-generation (arange) splitting: the global
   element count, the per-worker local start/stop computation (transcribed from
   `DistARangeOpRWP::matchAndRewrite`, PTensorDist.cpp lines 189-233), and the
   concatenation/covering law;
2. a semantic model of the distributed reduction (local reduce + all-reduce,
   `DistReductionOpRWP::matchAndRewrite`, lines 286-325);
3. a shallow embedding of the IR graph, the four rewrite patterns and the
   greedy fixed-point driver (`PTensorDistPass::runOnOperation`, lines 332-342),
   at the level of op kinds and operand/result types, which is the level the
   patterns' match conditions inspect.
-/

namespace PTensorDist

/-! ## Arithmetic model of the arange rewrite -/

/-- Modelled from the spec: the body of `createCountARange` is not under src/
(only its call site at PTensorDist.cpp line 193 and the op-kind CHECK lines of
src/test/imex-runner/ptensor_arange.mlir lines 107-117 are).  The spec states:
count = `max(0, ceil((stop-start)/step))` "with sign-aware comparison — the
source uses a compare+select to pick the correct subtraction order so the
formula is correct for both ascending and descending ranges".  The compare on
the sign of `step` selects the subtraction order (`start - stop` for a
descending range) and the matching positive step magnitude; the ceiling is the
usual `(d + a - 1) / a` with `/` floor division (Lean's Int division is
Euclidean, which agrees with floor division for the positive divisor `a`). -/
def createCountARange (start stop step : Int) : Int :=
  let d : Int := if step < 0 then start - stop else stop - start
  let a : Int := if step < 0 then -step else step
  max 0 ((d + a - 1) / a)

/-- Modelled from the spec: runtime semantics of `ptensor.arange` (its lowering
is outside src/).  Spec 4.3: "produces a 1-D sequence start, start+step,
start+2*step, … up to but excluding stop"; the number of elements is the
arange count. -/
def arangeList (start stop step : Int) : List Int :=
  (List.range (createCountARange start stop step).toNat).map
    (fun (k : Nat) => start + (k : Int) * step)

/-- Local start computed by the arange rewrite: `start + (off * step)`
(PTensorDist.cpp lines 215-218). -/
def localStart (start step off : Int) : Int := start + off * step

/-- Local stop computed by the arange rewrite: `start' + (lShape[0] * step)`
(PTensorDist.cpp lines 220-223). -/
def localStop (lstart step lsz : Int) : Int := lstart + lsz * step

/-- The local range a single worker produces: the rewritten (team-less) arange
evaluated at the rewrite's local start/stop (PTensorDist.cpp lines 206-232),
for a worker whose partition offset is `off` and local count is `cnt`. -/
def workerLocalRange (start step : Int) (off cnt : Nat) : List Int :=
  arangeList (localStart start step (off : Int))
    (localStop (localStart start step (off : Int)) step (cnt : Int)) step

/-- All workers' local ranges in worker-rank order.  Modelled from the spec:
the partitioning runtime (`dist.local_shape` / `dist.local_offsets` lowering)
is not under src/; the spec (3. DATA MODEL) requires the workers' partitions
to tile the global index space contiguously in rank order, so worker `w`'s
offset is the sum of the local counts of workers `0..w-1`. -/
def workerRangesAux (start step : Int) (off : Nat) : List Nat → List (List Int)
  | [] => []
  | c :: rest =>
      workerLocalRange start step off c ::
        workerRangesAux start step (off + c) rest

/-- The list of all workers' local arange results, worker `w` taking local
count `cnts[w]` and offset `cnts[0] + ... + cnts[w-1]`. -/
def workerRanges (start step : Int) (cnts : List Nat) : List (List Int) :=
  workerRangesAux start step 0 cnts

/-! ## Semantic model of the distributed reduction -/

/-- Modelled from the spec: runtime semantics of `ptensor.reduction` on a local
tensor (its lowering is outside src/): fold the reduction opcode's binary
combine `f` with its identity `e` over the elements. -/
def localReduceSem (f : Int → Int → Int) (e : Int) (xs : List Int) : Int :=
  xs.foldr f e

/-- Modelled from the spec: runtime semantics of `dist.allreduce` (GLOSSARY:
"a collective operation combining one value per worker into a single result,
using an associative/commutative combine opcode, replicated identically to
every worker afterward"): combine the per-worker partial values. -/
def allReduceSem (f : Int → Int → Int) (e : Int) (partials : List Int) : Int :=
  partials.foldr f e

/-- The value worker `w` observes after the reduction rewrite: the rewrite
first reduces the local partition with the original opcode
(PTensorDist.cpp lines 312-313) and then all-reduces the partials with the
same opcode (line 315); the all-reduce replicates one value to every worker,
so the observed value does not depend on `w`. -/
def distReduceObserved (f : Int → Int → Int) (e : Int)
    (parts : List (List Int)) (_w : Nat) : Int :=
  allReduceSem f e (parts.map (localReduceSem f e))

/-! ## Shallow embedding of the IR: types -/

/-- Element types; the rewrites only ever distinguish i64 (hard-coded in the
arange rewrite, PTensorDist.cpp line 194) from an arbitrary element type. -/
inductive DType
  | i64
  | f64
  | other (n : Nat)
  deriving DecidableEq

/-- mlir::RankedTensorType: a static shape (-1 encodes a dynamic size, as in
`::mlir::RankedTensorType::get({-1}, dtype)`, line 227) and an element type. -/
structure RTensorType where
  shape : List Int
  dtype : DType
  deriving DecidableEq

/-- imex::ptensor::PTensorType: wraps a ranked tensor type plus the two
boolean parameters of `PTensorType::get(ctx, rtensor, b1, b2)`
(lines 226-228 and 309-311 pass `false, false`). -/
structure PTensorType where
  rtensor : RTensorType
  b1 : Bool
  b2 : Bool
  deriving DecidableEq

/-- The static types the pass inspects or constructs. `distT` is
imex::dist::DistTensorType (wrapping its PTensorType); `infoT` is
imex::dist::DistInfoType with its rank parameter. -/
inductive MlirType
  | ptensorT (pt : PTensorType)
  | distT (pt : PTensorType)
  | rtensorT (rt : RTensorType)
  | intT (width : Nat)
  | indexT
  | shapeT
  | infoT (rank : Nat)
  deriving DecidableEq

/-- Whether a type is DistTensorType; this is what
`getType().dyn_cast<::imex::dist::DistTensorType>()` tests in each pattern. -/
def isDistT : MlirType → Bool
  | .distT _ => true
  | _ => false

/-- Rank (dimensionality) of the tensor carried by a value of the given type:
the length of the wrapped ranked tensor's shape. -/
def rankOfType : MlirType → Nat
  | .ptensorT pt => pt.rtensor.shape.length
  | .distT pt => pt.rtensor.shape.length
  | .rtensorT rt => rt.shape.length
  | _ => 0

/-- Field selector of `dist.extract_from_dist` (LSHAPE / LOFFSETS / TEAM,
PTensorDist.cpp lines 70-71, 78-79, 126-127). -/
inductive InfoField
  | lshape
  | loffsets
  | teamF
  deriving DecidableEq

/-- Where the global-shape operand of a constructed DistInfoOp comes from:
`ofCount` is the dynamic shape `shape.shape_of(tensor.empty(count))` built by
the arange rewrite (lines 198-200); `constShape dims` is a
`shape.const_shape` (lines 261-263 and 303-304). -/
inductive GShapeV
  | ofCount
  | constShape (dims : List Int)
  deriving DecidableEq

/-- Where the team operand of a constructed DistInfoOp comes from:
`operandTeam` is the matched op's own team operand (arange, line 204);
`teamOfOperand i` is `createTeamOf` applied to the matched op's i-th
operand (lines 272 and 317). -/
inductive TeamV
  | operandTeam
  | teamOfOperand (i : Nat)
  deriving DecidableEq

/-- The DistInfo descriptor constructed by `createDistInfo`
(PTensorDist.cpp lines 57-64): rank attribute, global shape, team. -/
structure DistInfoS where
  rank : Nat
  gshape : GShapeV
  team : TeamV
  deriving DecidableEq

/-! ## Shallow embedding of the IR: operations -/

/-- ptensor.arange: start/stop/step/device operand types, an optional team
operand (`op.getTeam()` may be a null Value, line 185), and the result type. -/
structure ARangeOpS where
  startTy : MlirType
  stopTy : MlirType
  stepTy : MlirType
  deviceTy : MlirType
  team : Option MlirType
  resTy : MlirType
  deriving DecidableEq

/-- ptensor.ewbin: opcode attribute, operand types, result type. -/
structure EWBinOpS where
  op : Nat
  lhsTy : MlirType
  rhsTy : MlirType
  resTy : MlirType
  deriving DecidableEq

/-- ptensor.reduction: opcode attribute, operand type, result type. -/
structure ReductionOpS where
  op : Nat
  inputTy : MlirType
  resTy : MlirType
  deriving DecidableEq

/-- Kinds of auxiliary arithmetic/tensor ops the rewrites emit; none of them
is matched by any of the four patterns, so their payload is irrelevant to the
pass and only their kind is recorded. -/
inductive ArithKind
  | constOp
  | cmpi
  | selectOp
  | addi
  | subi
  | muli
  | divui
  | indexCast
  | indexConst
  deriving DecidableEq

/-- The op graph node: the four op kinds the patterns match on carry their
full operand/result typing; the ops the rewrites emit carry the typing the
corresponding builder call receives. -/
inductive Op
  | arange (a : ARangeOpS)
  | ewbin (e : EWBinOpS)
  | reduction (r : ReductionOpS)
  | extractRTensor (inTy resTy : MlirType)
  | getPTensor (inTy resTy : MlirType)
  | mkPTensor (b1 b2 : Bool) (argTy resTy : MlirType)
  | initDistTensor (ptTy : MlirType) (infoRank : Nat) (resTy : MlirType)
  | distInfoOp (info : DistInfoS)
  | extractFromInfo (fld : InfoField) (infoRank : Nat)
  | getInfoOp (rank : Nat)
  | tensorEmpty
  | shapeOf
  | constShapeOp (dims : List Int)
  | tensorExtract
  | allReduceOp (op : Nat) (argTy : MlirType)
  | arith (k : ArithKind)
  deriving DecidableEq

/-! ## The rewrite patterns -/

/-- Match condition of the four patterns, exactly as tested in the C++:
`DistARangeOpRWP` fails iff the arange has no team (lines 185-187);
`DistEWBinOpRWP` fails unless both operands are DistTensorType (lines
251-258); `DistReductionOpRWP` fails unless the input is DistTensorType
(lines 296-299); `DistExtractRTensorOpRWP` fails unless the input is
DistTensorType (lines 159-163).  No other op kind is matched by any
pattern. -/
def anyMatch : Op → Bool
  | .arange a => a.team.isSome
  | .ewbin e => isDistT e.lhsTy && isDistT e.rhsTy
  | .reduction r => isDistT r.inputTy
  | .extractRTensor inTy _ => isDistT inTy
  | _ => false

/-- Ops created by `createGetLocal` (PTensorDist.cpp lines 96-108) when the
argument is a DistTensorType wrapping `pt`: GetPTensorOp, ExtractRTensorOp on
the resulting PTensor, MkPTensorOp on the resulting RankedTensor. -/
def createGetLocalOps (pt : PTensorType) : List Op :=
  [ .getPTensor (.distT pt) (.ptensorT pt),
    .extractRTensor (.ptensorT pt) (.rtensorT pt.rtensor),
    .mkPTensor false false (.rtensorT pt.rtensor)
      (.ptensorT ⟨pt.rtensor, false, false⟩) ]

/-- Result type of `createGetLocal`: a non-distributed PTensorType wrapping
the operand's ranked tensor type. -/
def createGetLocalTy (pt : PTensorType) : MlirType :=
  .ptensorT ⟨pt.rtensor, false, false⟩

/-- Ops created by `createTeamOf` (PTensorDist.cpp lines 118-128):
GetInfoOp at the operand's tensor rank, then ExtractFromInfoOp TEAM. -/
def createTeamOfOps (pt : PTensorType) : List Op :=
  [ .getInfoOp pt.rtensor.shape.length,
    .extractFromInfo .teamF pt.rtensor.shape.length ]

/-- Modelled from the spec and src/test/imex-runner/ptensor_arange.mlir CHECK
lines 107-117: the op kinds `createCountARange` emits (its body is not under
src/): constants, a compare and a select (sign-aware subtraction order), two
additions, a subtraction, a division and an index cast. -/
def createCountARangeOps : List Op :=
  [ .arith .constOp, .arith .constOp, .arith .constOp,
    .arith .cmpi, .arith .selectOp, .arith .addi, .arith .addi,
    .arith .subi, .arith .divui, .arith .indexCast ]

/-- Structured output of the arange rewrite. -/
structure ARangeRewriteOut where
  newOps : List Op
  localARange : ARangeOpS
  info : DistInfoS
  resTy : MlirType
  deriving DecidableEq

/-- `DistARangeOpRWP::matchAndRewrite` (PTensorDist.cpp lines 177-235).
Fails when the op has no team.  Otherwise: count ops (line 193), the global
shape (lines 198-200), DistInfoOp with rank 1 (lines 197, 204), local shape
and offset extraction (lines 206-214), the local start/stop arithmetic
(lines 215-223), the re-issued team-less arange whose type is the dynamically
sized 1-d i64 PTensorType (lines 194, 225-232), and the final
InitDistTensorOp (line 233, `createMkTnsr`). -/
def DistARangeOpRWP (a : ARangeOpS) : Option ARangeRewriteOut :=
  match a.team with
  | none => none
  | some _ =>
    let artype : PTensorType := ⟨⟨[-1], .i64⟩, false, false⟩
    let localAR : ARangeOpS :=
      { startTy := .intT 64, stopTy := .intT 64, stepTy := a.stepTy,
        deviceTy := a.deviceTy, team := none, resTy := .ptensorT artype }
    let info : DistInfoS := ⟨1, .ofCount, .operandTeam⟩
    some
      { newOps :=
          createCountARangeOps ++
          [ .tensorEmpty, .shapeOf,
            .distInfoOp info,
            .extractFromInfo .lshape 1,
            .arith .indexConst,
            .tensorExtract,
            .extractFromInfo .loffsets 1,
            .tensorExtract,
            .arith .muli, .arith .addi,
            .arith .muli, .arith .addi,
            .arange localAR,
            .initDistTensor (.ptensorT artype) 1 (.distT artype) ],
        localARange := localAR,
        info := info,
        resTy := .distT artype }

/-- Structured output of the ewbin rewrite. -/
structure EWBinRewriteOut where
  newOps : List Op
  localEWBin : EWBinOpS
  info : DistInfoS
  resTy : MlirType
  deriving DecidableEq

/-- `DistEWBinOpRWP::matchAndRewrite` (PTensorDist.cpp lines 244-277).
Fails unless both operands are DistTensorType.  Otherwise: the global shape
is the lhs tensor's static shape (lines 261-263), both operands are
unwrapped with `createGetLocal` (lines 265-266), the local ewbin is re-issued
with the lhs local type as result type (lines 268-270), the team is taken
from the lhs (line 272), DistInfoOp is built with rank 1 (line 273) and the
result is wrapped (line 274). -/
def DistEWBinOpRWP (e : EWBinOpS) : Option EWBinRewriteOut :=
  match e.lhsTy, e.rhsTy with
  | .distT lp, .distT rp =>
    let gshape : GShapeV := .constShape lp.rtensor.shape
    let localE : EWBinOpS :=
      { op := e.op, lhsTy := createGetLocalTy lp, rhsTy := createGetLocalTy rp,
        resTy := createGetLocalTy lp }
    let info : DistInfoS := ⟨1, gshape, .teamOfOperand 0⟩
    some
      { newOps :=
          [ .constShapeOp lp.rtensor.shape ] ++
          createGetLocalOps lp ++
          createGetLocalOps rp ++
          [ .ewbin localE ] ++
          createTeamOfOps lp ++
          [ .distInfoOp info,
            .initDistTensor (createGetLocalTy lp) 1
              (.distT ⟨lp.rtensor, false, false⟩) ],
        localEWBin := localE,
        info := info,
        resTy := .distT ⟨lp.rtensor, false, false⟩ }
  | _, _ => none

/-- Structured output of the reduction rewrite. -/
structure ReductionRewriteOut where
  newOps : List Op
  localReduction : ReductionOpS
  info : DistInfoS
  resTy : MlirType
  deriving DecidableEq

/-- `DistReductionOpRWP::matchAndRewrite` (PTensorDist.cpp lines 286-325).
Fails unless the input is DistTensorType.  Otherwise: the 0-d global shape
(lines 302-304), the unwrapped local input (line 306), the local reduction
re-issued at the 0-d result type with the input's element type (lines
308-313), the all-reduce with the same opcode (`createAllReduce`, lines
82-93 and 315), the team from the input (line 317), DistInfoOp with rank 1
(line 318), the marked MkPTensorOp (lines 319-321) and the final wrap
(line 322). -/
def DistReductionOpRWP (r : ReductionOpS) : Option ReductionRewriteOut :=
  match r.inputTy with
  | .distT ip =>
    let dt := ip.rtensor.dtype
    let retPt : PTensorType := ⟨⟨[], dt⟩, false, false⟩
    let localR : ReductionOpS :=
      { op := r.op, inputTy := createGetLocalTy ip, resTy := .ptensorT retPt }
    let info : DistInfoS := ⟨1, .constShape [], .teamOfOperand 0⟩
    some
      { newOps :=
          [ .constShapeOp [] ] ++
          createGetLocalOps ip ++
          [ .reduction localR,
            .extractRTensor (.ptensorT retPt) (.rtensorT ⟨[], dt⟩),
            .allReduceOp r.op (.rtensorT ⟨[], dt⟩) ] ++
          createTeamOfOps ip ++
          [ .distInfoOp info,
            .arith .constOp,
            .mkPTensor false true (.rtensorT ⟨[], dt⟩)
              (.ptensorT ⟨⟨[], dt⟩, false, true⟩),
            .initDistTensor (.ptensorT ⟨⟨[], dt⟩, false, true⟩) 1
              (.distT ⟨⟨[], dt⟩, false, true⟩) ],
        localReduction := localR,
        info := info,
        resTy := .distT ⟨⟨[], dt⟩, false, true⟩ }
  | _ => none

/-- `DistExtractRTensorOpRWP::matchAndRewrite` (PTensorDist.cpp lines
150-170).  Fails unless the input is DistTensorType.  Otherwise a
GetPTensorOp is inserted and the ExtractRTensorOp is re-issued on its
(non-distributed) PTensor result, at the wrapped ranked tensor type. -/
def DistExtractRTensorOpRWP (inTy _resTy : MlirType) : Option (List Op) :=
  match inTy with
  | .distT pt =>
    some [ .getPTensor (.distT pt) (.ptensorT pt),
           .extractRTensor (.ptensorT pt) (.rtensorT pt.rtensor) ]
  | _ => none

/-- One pattern application on a single op: the union of the four patterns,
as inserted by `PTensorDistPass::runOnOperation` (lines 336-341); returns the
replacement subgraph, or none when no pattern matches. -/
def rewriteOp : Op → Option (List Op)
  | .arange a => (DistARangeOpRWP a).map (·.newOps)
  | .ewbin e => (DistEWBinOpRWP e).map (·.newOps)
  | .reduction r => (DistReductionOpRWP r).map (·.newOps)
  | .extractRTensor inTy resTy => DistExtractRTensorOpRWP inTy resTy
  | _ => none

/-! ## The greedy fixed-point driver -/

/-- One sweep of `applyPatternsAndFoldGreedily`'s worklist on the function
body: rewrite the first op some pattern matches, splicing its replacement
subgraph in place. -/
def passStep : List Op → List Op
  | [] => []
  | o :: rest =>
    match rewriteOp o with
    | some newOps => newOps ++ rest
    | none => o :: passStep rest

/-- Count of ops some pattern still matches; the driver's termination
measure. -/
def countMatchable (p : List Op) : Nat := (p.filter anyMatch).length

/-- Saturation with explicit fuel: keep applying `passStep` while some
pattern matches. -/
def saturateFuel : Nat → List Op → List Op
  | 0, p => p
  | Nat.succ n, p => if p.any anyMatch then saturateFuel n (passStep p) else p

/-- `PTensorDistPass::runOnOperation` (lines 336-341): apply the four
patterns greedily to a fixed point.  The initial count of matchable ops is
sufficient fuel because every replacement subgraph is pattern-free. -/
def runPass (p : List Op) : List Op := saturateFuel (countMatchable p) p

/-- The op's team operand, when its kind has one (only arange does). -/
def teamOperandOf : Op → Option MlirType
  | .arange a => a.team
  | _ => none

/-- All operand and result types appearing on an op. -/
def opTypes : Op → List MlirType
  | .arange a => [a.startTy, a.stopTy, a.stepTy, a.deviceTy, a.resTy] ++
      (match a.team with | some t => [t] | none => [])
  | .ewbin e => [e.lhsTy, e.rhsTy, e.resTy]
  | .reduction r => [r.inputTy, r.resTy]
  | .extractRTensor inTy resTy => [inTy, resTy]
  | .getPTensor inTy resTy => [inTy, resTy]
  | .mkPTensor _ _ argTy resTy => [argTy, resTy]
  | .initDistTensor ptTy _ resTy => [ptTy, resTy]
  | .distInfoOp _ => []
  | .extractFromInfo _ _ => []
  | .getInfoOp _ => []
  | .tensorEmpty => []
  | .shapeOf => []
  | .constShapeOp _ => []
  | .tensorExtract => []
  | .allReduceOp _ argTy => [argTy]
  | .arith _ => []

/-- A non-distributed op: no team operand and no DistTensorType anywhere in
its operand/result types. -/
def distFree (o : Op) : Bool :=
  (teamOperandOf o).isNone && (opTypes o).all (fun t => !isDistT t)

/-! ## Example inputs (the shapes appearing in the repository's tests) -/

/-- The 1-d dynamically-sized i64 PTensorType of the tests
(`!ptensor.ptensor<tensor<?xi64>>`). -/
def exPTensorType : PTensorType := ⟨⟨[-1], .i64⟩, false, false⟩

/-- An arange with a team operand, as in
src/test/imex-runner/ptensor_arange.mlir line 101. -/
def exARange : ARangeOpS :=
  ⟨.intT 64, .intT 64, .intT 64, .intT 64, some (.intT 64),
    .ptensorT exPTensorType⟩

/-- An arange without a team operand (a null team Value). -/
def exARangeNoTeam : ARangeOpS :=
  ⟨.intT 64, .intT 64, .intT 64, .intT 64, none, .ptensorT exPTensorType⟩

/-- The rewrite output for `exARange` (the getD default is never used since
the rewrite matches). -/
def exARangeOut : ARangeRewriteOut :=
  (DistARangeOpRWP exARange).getD
    ⟨[], exARange, ⟨1, .ofCount, .operandTeam⟩, .indexT⟩

/-- An ewbin with exactly one distributed operand. -/
def exEWBinOneDist : EWBinOpS :=
  ⟨0, .distT exPTensorType, .ptensorT exPTensorType, .ptensorT exPTensorType⟩

/-- A reduction over a distributed 1-d i64 tensor, opcode 4 as in
src/test/imex-runner/ptensor_arange.mlir line 90. -/
def exReduction : ReductionOpS :=
  ⟨4, .distT exPTensorType, .ptensorT ⟨⟨[], .i64⟩, false, false⟩⟩

/-- The rewrite output for `exReduction`. -/
def exReductionOut : ReductionRewriteOut :=
  (DistReductionOpRWP exReduction).getD
    ⟨[], exReduction, ⟨1, .constShape [], .teamOfOperand 0⟩, .indexT⟩

/-- An ewbin with both operands distributed. -/
def exEWBinBoth : EWBinOpS :=
  ⟨0, .distT exPTensorType, .distT exPTensorType, .ptensorT exPTensorType⟩

/-- A program with no team-bearing op and no distributed-typed value. -/
def exLocalProgram : List Op :=
  [Op.arange exARangeNoTeam,
   Op.ewbin ⟨0, .ptensorT exPTensorType, .ptensorT exPTensorType,
     .ptensorT exPTensorType⟩,
   Op.reduction ⟨4, .ptensorT exPTensorType,
     .ptensorT ⟨⟨[], .i64⟩, false, false⟩⟩,
   Op.extractRTensor (.ptensorT exPTensorType) (.rtensorT ⟨[-1], .i64⟩)]

/-! ## Arithmetic lemmas: arange count and covering -/

/-- For any nonzero step the arange count of the half-open range from `s` to
`s + c * step` is exactly `c`. -/
theorem createCountARange_exact (s step : Int) (h : step ≠ 0) (c : Nat) :
    createCountARange s (s + (c : Int) * step) step = (c : Int) := by
  unfold createCountARange
  rcases lt_trichotomy step 0 with hneg | hz | hpos
  · simp only [if_pos hneg]
    have hrw : s - (s + (c : Int) * step) + -step - 1
        = (-step - 1) + (c : Int) * -step := by
      ring
    rw [hrw, Int.add_mul_ediv_right _ _ (by omega : (-step) ≠ 0),
        Int.ediv_eq_zero_of_lt (by omega) (by omega)]
    omega
  · exact absurd hz h
  · simp only [if_neg (by omega : ¬ step < 0)]
    have hrw : s + (c : Int) * step - s + step - 1
        = (step - 1) + (c : Int) * step := by
      ring
    rw [hrw, Int.add_mul_ediv_right _ _ h,
        Int.ediv_eq_zero_of_lt (by omega) (by omega)]
    omega

/-- A worker's local range at offset `off` with local count `c` is the `c`
global elements starting at index `off`. -/
theorem workerLocalRange_eq (start step : Int) (h : step ≠ 0) (off c : Nat) :
    workerLocalRange start step off c
      = (List.range c).map (fun k => start + ((off + k : Nat) : Int) * step) := by
  unfold workerLocalRange arangeList localStart localStop
  rw [createCountARange_exact _ _ h c, Int.toNat_natCast]
  apply List.map_congr_left
  intro k _
  push_cast
  ring

/-- Concatenating workers' local ranges starting at a base offset gives the
contiguous block of global elements of the summed local counts. -/
theorem workerRangesAux_flatten (start step : Int) (h : step ≠ 0) :
    ∀ (cnts : List Nat) (off : Nat),
      (workerRangesAux start step off cnts).flatten
        = (List.range cnts.sum).map
            (fun k => start + ((off + k : Nat) : Int) * step)
  | [], _ => by simp [workerRangesAux]
  | c :: rest, off => by
    have ih := workerRangesAux_flatten start step h rest (off + c)
    simp only [workerRangesAux, List.flatten_cons, ih,
      workerLocalRange_eq start step h off c, List.sum_cons, List.range_add,
      List.map_append, List.map_map]
    congr 1
    apply List.map_congr_left
    intro k _
    simp only [Function.comp_apply]
    push_cast
    ring

/-- Covering law, helper form: any list of local counts summing to the
global count tiles the global arange exactly. -/
theorem workerRanges_covers (start stop step : Int) (h : step ≠ 0)
    (cnts : List Nat)
    (hsum : (cnts.sum : Int) = createCountARange start stop step) :
    (workerRanges start step cnts).flatten = arangeList start stop step := by
  unfold workerRanges arangeList
  rw [workerRangesAux_flatten start step h cnts 0, ← hsum, Int.toNat_natCast]
  apply List.map_congr_left
  intro k _
  push_cast
  ring

/-- Ceiling of an integer division by a positive divisor, expressed with the
floor-division formula used by the count computation. -/
theorem ceil_ediv_pos (d a : Int) (ha : 0 < a) :
    ⌈(d : ℚ) / (a : ℚ)⌉ = (d + a - 1) / a := by
  have haq : (0 : ℚ) < (a : ℚ) := by exact_mod_cast ha
  have h1 : ((d + a - 1) / a) * a ≤ d + a - 1 :=
    (Int.le_ediv_iff_mul_le ha).mp le_rfl
  have h2 : d + a - 1 < ((d + a - 1) / a + 1) * a :=
    (Int.ediv_lt_iff_lt_mul ha).mp (lt_add_one _)
  rw [Int.ceil_eq_iff]
  constructor
  · rw [show ((((d + a - 1) / a : Int) : ℚ) - 1)
        = (((d + a - 1) / a - 1 : Int) : ℚ) by push_cast; ring]
    rw [lt_div_iff₀ haq]
    have hlt : ((d + a - 1) / a - 1) * a < d := by nlinarith
    exact_mod_cast hlt
  · rw [div_le_iff₀ haq]
    have hle : d ≤ ((d + a - 1) / a) * a := by nlinarith
    exact_mod_cast hle

/-! ## Reduction fold lemmas -/

/-- Folding an associative operation with identity over an append splits into
the combine of the two folds. -/
theorem foldr_append_op (f : Int → Int → Int) (e : Int)
    (hassoc : ∀ x y z, f (f x y) z = f x (f y z)) (hid : ∀ x, f e x = x)
    (l1 l2 : List Int) :
    (l1 ++ l2).foldr f e = f (l1.foldr f e) (l2.foldr f e) := by
  induction l1 with
  | nil => simp [hid]
  | cons x xs ih => simp [ih, hassoc]

/-- Folding the per-part folds equals folding the flattened parts. -/
theorem foldr_parts (f : Int → Int → Int) (e : Int)
    (hassoc : ∀ x y z, f (f x y) z = f x (f y z)) (hid : ∀ x, f e x = x)
    (parts : List (List Int)) :
    (parts.map (fun xs => xs.foldr f e)).foldr f e
      = parts.flatten.foldr f e := by
  induction parts with
  | nil => rfl
  | cons p ps ih =>
    simp only [List.map_cons, List.foldr_cons, List.flatten_cons,
      foldr_append_op f e hassoc hid, ih]

/-! ## Pattern-matching and driver lemmas -/

/-- A pattern produces a rewrite exactly when its match condition holds. -/
theorem rewriteOp_isSome (o : Op) : (rewriteOp o).isSome = anyMatch o := by
  cases o with
  | arange a =>
    simp only [rewriteOp, anyMatch, DistARangeOpRWP]
    cases a.team <;> rfl
  | ewbin e =>
    simp only [rewriteOp, anyMatch, DistEWBinOpRWP]
    cases e.lhsTy <;> cases e.rhsTy <;> rfl
  | reduction r =>
    simp only [rewriteOp, anyMatch, DistReductionOpRWP]
    cases r.inputTy <;> rfl
  | extractRTensor inTy resTy =>
    simp only [rewriteOp, anyMatch, DistExtractRTensorOpRWP]
    cases inTy <;> rfl
  | _ => rfl

/-- No match means no rewrite. -/
theorem rewriteOp_none_of_no_match (o : Op) (h : anyMatch o = false) :
    rewriteOp o = none := by
  have hs := rewriteOp_isSome o
  rw [h] at hs
  exact Option.not_isSome_iff_eq_none.mp (by simp [hs])

/-- A match always yields a replacement subgraph. -/
theorem rewriteOp_some_of_match (o : Op) (h : anyMatch o = true) :
    ∃ l, rewriteOp o = some l := by
  have hs := rewriteOp_isSome o
  rw [h] at hs
  exact Option.isSome_iff_exists.mp hs

/-- No op of the arange replacement subgraph is matched by any pattern. -/
theorem arange_newOps_unmatchable (a : ARangeOpS) (out : ARangeRewriteOut)
    (h : DistARangeOpRWP a = some out) :
    ∀ o' ∈ out.newOps, anyMatch o' = false := by
  unfold DistARangeOpRWP at h
  split at h
  · exact absurd h (by simp)
  · obtain rfl := Option.some.inj h
    intro o' ho'
    fin_cases ho' <;> rfl

/-- No op of the ewbin replacement subgraph is matched by any pattern. -/
theorem ewbin_newOps_unmatchable (e : EWBinOpS) (out : EWBinRewriteOut)
    (h : DistEWBinOpRWP e = some out) :
    ∀ o' ∈ out.newOps, anyMatch o' = false := by
  unfold DistEWBinOpRWP at h
  split at h
  · obtain rfl := Option.some.inj h
    intro o' ho'
    fin_cases ho' <;> rfl
  · exact absurd h (by simp)

/-- No op of the reduction replacement subgraph is matched by any pattern. -/
theorem reduction_newOps_unmatchable (r : ReductionOpS)
    (out : ReductionRewriteOut) (h : DistReductionOpRWP r = some out) :
    ∀ o' ∈ out.newOps, anyMatch o' = false := by
  unfold DistReductionOpRWP at h
  split at h
  · obtain rfl := Option.some.inj h
    intro o' ho'
    fin_cases ho' <;> rfl
  · exact absurd h (by simp)

/-- No op of the extract replacement subgraph is matched by any pattern. -/
theorem extract_newOps_unmatchable (inTy resTy : MlirType) (l : List Op)
    (h : DistExtractRTensorOpRWP inTy resTy = some l) :
    ∀ o' ∈ l, anyMatch o' = false := by
  unfold DistExtractRTensorOpRWP at h
  split at h
  · obtain rfl := Option.some.inj h
    intro o' ho'
    fin_cases ho' <;> rfl
  · exact absurd h (by simp)

/-- Every op any rewrite creates is unmatched by every pattern. -/
theorem newOps_unmatchable (o : Op) (l : List Op) (hre : rewriteOp o = some l) :
    ∀ o' ∈ l, anyMatch o' = false := by
  cases o with
  | arange a =>
    have hr : rewriteOp (Op.arange a) = (DistARangeOpRWP a).map (·.newOps) := rfl
    rw [hr] at hre
    cases hA : DistARangeOpRWP a with
    | none => rw [hA] at hre; exact absurd hre (by simp)
    | some out =>
      rw [hA, Option.map_some'] at hre
      obtain rfl := Option.some.inj hre
      exact arange_newOps_unmatchable a out hA
  | ewbin e =>
    have hr : rewriteOp (Op.ewbin e) = (DistEWBinOpRWP e).map (·.newOps) := rfl
    rw [hr] at hre
    cases hA : DistEWBinOpRWP e with
    | none => rw [hA] at hre; exact absurd hre (by simp)
    | some out =>
      rw [hA, Option.map_some'] at hre
      obtain rfl := Option.some.inj hre
      exact ewbin_newOps_unmatchable e out hA
  | reduction r =>
    have hr : rewriteOp (Op.reduction r)
        = (DistReductionOpRWP r).map (·.newOps) := rfl
    rw [hr] at hre
    cases hA : DistReductionOpRWP r with
    | none => rw [hA] at hre; exact absurd hre (by simp)
    | some out =>
      rw [hA, Option.map_some'] at hre
      obtain rfl := Option.some.inj hre
      exact reduction_newOps_unmatchable r out hA
  | extractRTensor inTy resTy =>
    exact extract_newOps_unmatchable inTy resTy l hre
  | getPTensor a b => exact absurd hre (by simp [rewriteOp])
  | mkPTensor a b c d => exact absurd hre (by simp [rewriteOp])
  | initDistTensor a b c => exact absurd hre (by simp [rewriteOp])
  | distInfoOp i => exact absurd hre (by simp [rewriteOp])
  | extractFromInfo a b => exact absurd hre (by simp [rewriteOp])
  | getInfoOp a => exact absurd hre (by simp [rewriteOp])
  | tensorEmpty => exact absurd hre (by simp [rewriteOp])
  | shapeOf => exact absurd hre (by simp [rewriteOp])
  | constShapeOp d => exact absurd hre (by simp [rewriteOp])
  | tensorExtract => exact absurd hre (by simp [rewriteOp])
  | allReduceOp a b => exact absurd hre (by simp [rewriteOp])
  | arith k => exact absurd hre (by simp [rewriteOp])

/-- The termination measure is zero exactly when no pattern matches. -/
theorem countMatchable_eq_zero_iff (p : List Op) :
    countMatchable p = 0 ↔ p.any anyMatch = false := by
  unfold countMatchable
  rw [List.length_eq_zero, List.filter_eq_nil_iff]
  simp [List.any_eq_false]

/-- A sweep over a match-free program changes nothing. -/
theorem passStep_of_no_match (p : List Op) (h : p.any anyMatch = false) :
    passStep p = p := by
  induction p with
  | nil => rfl
  | cons o rest ih =>
    simp only [List.any_cons, Bool.or_eq_false_iff] at h
    simp only [passStep, rewriteOp_none_of_no_match o h.1, ih h.2]

/-- Each sweep that fires a rewrite strictly decreases the number of
matchable ops by one: the matched op goes away and its replacement subgraph
contains no matchable op. -/
theorem countMatchable_passStep (p : List Op) (hp : p.any anyMatch = true) :
    countMatchable (passStep p) + 1 = countMatchable p := by
  induction p with
  | nil => simp at hp
  | cons o rest ih =>
    by_cases h : anyMatch o = true
    · obtain ⟨l, hl⟩ := rewriteOp_some_of_match o h
      have hfilter : l.filter anyMatch = [] := by
        rw [List.filter_eq_nil_iff]
        intro o' ho'
        simp [newOps_unmatchable o l hl o' ho']
      simp only [passStep, hl, countMatchable, List.filter_append, hfilter,
        List.filter_cons, h, if_pos trivial, List.nil_append, List.length_cons]
    · have hfalse : anyMatch o = false := by simpa using h
      have hrest : rest.any anyMatch = true := by
        simp only [List.any_cons, hfalse, Bool.false_or] at hp
        exact hp
      simp only [passStep, rewriteOp_none_of_no_match o hfalse, countMatchable,
        List.filter_cons, hfalse]
      have hcount := ih hrest
      simp only [countMatchable] at hcount
      simpa using hcount

/-- With fuel at least the number of matchable ops, saturation reaches a
state in which no pattern matches. -/
theorem saturateFuel_no_match (n : Nat) :
    ∀ p : List Op, countMatchable p ≤ n →
      (saturateFuel n p).any anyMatch = false := by
  induction n with
  | zero =>
    intro p hp
    have h0 : countMatchable p = 0 := Nat.le_zero.mp hp
    rw [saturateFuel]
    exact (countMatchable_eq_zero_iff p).mp h0
  | succ n ih =>
    intro p hp
    rw [saturateFuel]
    by_cases h : p.any anyMatch = true
    · rw [if_pos h]
      apply ih
      have hstep := countMatchable_passStep p h
      omega
    · rw [if_neg h]
      simpa using h

/-- The pass always ends with no pattern matching. -/
theorem runPass_no_match (p : List Op) : (runPass p).any anyMatch = false :=
  saturateFuel_no_match (countMatchable p) p le_rfl

/-- The pass is the identity on match-free programs. -/
theorem runPass_id_of_no_match (p : List Op) (h : p.any anyMatch = false) :
    runPass p = p := by
  unfold runPass
  rw [(countMatchable_eq_zero_iff p).mpr h]
  rfl

/-- The pass output is a fixed point of the sweep. -/
theorem passStep_runPass (p : List Op) : passStep (runPass p) = runPass p :=
  passStep_of_no_match _ (runPass_no_match p)

/-- On a single matched op the pass performs exactly the one rewrite. -/
theorem runPass_single_rewrite (o : Op) (l : List Op)
    (h : rewriteOp o = some l) : runPass [o] = l := by
  have hm : anyMatch o = true := by
    have hs := rewriteOp_isSome o
    rw [h] at hs
    exact hs.symm.trans rfl
  have hc : countMatchable [o] = 1 := by
    simp [countMatchable, List.filter_cons, hm]
  unfold runPass
  rw [hc, saturateFuel, if_pos (by simp [hm]), saturateFuel]
  simp [passStep, h]

/-- A non-distributed op is matched by no pattern. -/
theorem distFree_no_match (o : Op) (h : distFree o = true) :
    anyMatch o = false := by
  cases o with
  | arange a =>
    simp only [distFree, teamOperandOf, Bool.and_eq_true,
      Option.isNone_iff_eq_none] at h
    simp [anyMatch, h.1]
  | ewbin e =>
    simp only [distFree, teamOperandOf, opTypes, Bool.and_eq_true,
      List.all_eq_true] at h
    have hl := h.2 e.lhsTy (by simp)
    have hr := h.2 e.rhsTy (by simp)
    simp only [Bool.not_eq_true'] at hl hr
    simp [anyMatch, hl, hr]
  | reduction r =>
    simp only [distFree, teamOperandOf, opTypes, Bool.and_eq_true,
      List.all_eq_true] at h
    have hi := h.2 r.inputTy (by simp)
    simp only [Bool.not_eq_true'] at hi
    simp [anyMatch, hi]
  | extractRTensor inTy resTy =>
    simp only [distFree, teamOperandOf, opTypes, Bool.and_eq_true,
      List.all_eq_true] at h
    have hi := h.2 inTy (by simp)
    simp only [Bool.not_eq_true'] at hi
    simp [anyMatch, hi]
  | _ => rfl

/-- A program of non-distributed ops has no matchable op. -/
theorem any_anyMatch_false_of_distFree (p : List Op)
    (h : p.all distFree = true) : p.any anyMatch = false := by
  rw [List.any_eq_false]
  intro o ho
  rw [List.all_eq_true] at h
  simp [distFree_no_match o (h o ho)]

/-- A DistTensorType value is exactly a `distT` wrapper. -/
theorem isDistT_eq_true_iff (t : MlirType) :
    isDistT t = true ↔ ∃ pt, t = .distT pt := by
  cases t <;> simp [isDistT]

/-! ## Claim theorems -/

/-- C1: for every worker count and every integer start/stop/step with nonzero
step (ascending or descending, empty ranges and non-divisible counts
included), when the workers' local counts sum to the global arange count,
concatenating the workers' local arange results — each computed from the
rewrite's local start `start + offset*step` and local stop
`start' + localCount*step` — in worker-rank order reproduces exactly the
global sequence, with no element duplicated or omitted. -/
theorem claim1_range_partition_covering (start stop step : Int)
    (h : step ≠ 0) (cnts : List Nat)
    (hsum : (cnts.sum : Int) = createCountARange start stop step) :
    (workerRanges start step cnts).flatten = arangeList start stop step := by
  unfold workerRanges arangeList
  rw [workerRangesAux_flatten start step h cnts 0, ← hsum, Int.toNat_natCast]
  apply List.map_congr_left
  intro k _
  push_cast
  ring

/-- Witness for C1: the spec's concrete scenario, team size 2 with
start 0, stop 10, step 2 and local counts 3 and 2. -/
theorem claim1_range_partition_covering_witness :
    (2 : Int) ≠ 0 ∧ (([3, 2] : List Nat).sum : Int) = createCountARange 0 10 2 ∧
    (workerRanges 0 2 [3, 2]).flatten = arangeList 0 10 2 :=
  ⟨by decide, by decide,
   claim1_range_partition_covering 0 10 2 (by decide) [3, 2] (by decide)⟩

/-- C2: for an associative and commutative reduction opcode with identity,
the post-rewrite value (local reduction with the original opcode followed by
an all-reduce with the same opcode) observed by any two workers is identical,
and equals the reduction of the opcode over the full unpartitioned tensor,
independently of how the elements are partitioned across workers. -/
theorem claim2_reduction_consistency (f : Int → Int → Int) (e : Int)
    (hassoc : ∀ x y z, f (f x y) z = f x (f y z))
    (hcomm : ∀ x y, f x y = f y x)
    (hid : ∀ x, f e x = x)
    (parts : List (List Int)) (w w2 : Nat) :
    distReduceObserved f e parts w = distReduceObserved f e parts w2 ∧
    distReduceObserved f e parts w = localReduceSem f e parts.flatten := by
  refine ⟨rfl, ?_⟩
  exact foldr_parts f e hassoc hid parts

/-- Witness for C2: the spec's concrete scenario, sum over partitions
[1,2] and [3,4]; both workers observe 10, the global reduction. -/
theorem claim2_reduction_consistency_witness :
    distReduceObserved (· + ·) 0 [[1, 2], [3, 4]] 0 = 10 ∧
    distReduceObserved (· + ·) 0 [[1, 2], [3, 4]] 0
      = distReduceObserved (· + ·) 0 [[1, 2], [3, 4]] 1 ∧
    distReduceObserved (· + ·) 0 [[1, 2], [3, 4]] 0
      = localReduceSem (· + ·) 0 ([[1, 2], [3, 4]] : List (List Int)).flatten :=
  ⟨by decide,
   (claim2_reduction_consistency (· + ·) 0 (fun x y z => Int.add_assoc x y z)
      (fun x y => Int.add_comm x y) (fun x => Int.zero_add x)
      [[1, 2], [3, 4]] 0 1).1,
   (claim2_reduction_consistency (· + ·) 0 (fun x y z => Int.add_assoc x y z)
      (fun x y => Int.add_comm x y) (fun x => Int.zero_add x)
      [[1, 2], [3, 4]] 0 1).2⟩

/-- C3: every op created by any of the four rewrite rules is matched by no
rule (its PTensor operands are never distributed and its re-issued arange
has no team), so no rule can re-fire on its own output; consequently the
greedy driver reaches saturation — a state where no rule matches — and that
state is a fixed point of the sweep. -/
theorem claim3_rewrite_termination :
    (∀ (o : Op) (l : List Op), rewriteOp o = some l →
        ∀ o' ∈ l, anyMatch o' = false) ∧
    (∀ p : List Op, (runPass p).any anyMatch = false) ∧
    (∀ p : List Op, passStep (runPass p) = runPass p) :=
  ⟨newOps_unmatchable, runPass_no_match, passStep_runPass⟩

/-- Witness for C3: the team-bearing example arange rewrites to a concrete
subgraph, and a member of that subgraph is matched by no rule. -/
theorem claim3_rewrite_termination_witness :
    rewriteOp (Op.arange exARange)
        = some ((rewriteOp (Op.arange exARange)).getD []) ∧
    Op.tensorEmpty ∈ (rewriteOp (Op.arange exARange)).getD [] ∧
    anyMatch Op.tensorEmpty = false :=
  ⟨by decide, by decide,
   claim3_rewrite_termination.1 (Op.arange exARange)
     ((rewriteOp (Op.arange exARange)).getD []) (by decide)
     Op.tensorEmpty (by decide)⟩

/-- C4, counterexample: the claim states the DistInfo attached to the
reduction rewrite's rank-0 result has rank 0; on the concrete reduction of
the test suite the rewrite constructs a DistInfo with rank field 1 while the
result tensor it describes has rank 0. -/
theorem claim4_distinfo_rank_counterexample :
    (DistReductionOpRWP exReduction).map
        (fun out => (out.info.rank, rankOfType out.resTy)) = some (1, 0) ∧
    (1 : Nat) ≠ 0 :=
  ⟨rfl, by decide⟩

/-- C4, amended: every DistInfo constructed by a rewrite rule has rank field
1 — the arange rewrite's, where the result is indeed 1-dimensional; the
elementwise-binary rewrite's, regardless of the operands' rank; and the
reduction rewrite's, although its result tensor has rank 0. -/
theorem claim4_distinfo_rank_amended :
    (∀ a : ARangeOpS, a.team.isSome = true →
      (DistARangeOpRWP a).map
        (fun out => (out.info.rank, rankOfType out.resTy)) = some (1, 1)) ∧
    (∀ e : EWBinOpS, isDistT e.lhsTy = true → isDistT e.rhsTy = true →
      (DistEWBinOpRWP e).map (fun out => out.info.rank) = some 1) ∧
    (∀ r : ReductionOpS, isDistT r.inputTy = true →
      (DistReductionOpRWP r).map
        (fun out => (out.info.rank, rankOfType out.resTy)) = some (1, 0)) := by
  refine ⟨?_, ?_, ?_⟩
  · intro a ha
    obtain ⟨t, ht⟩ := Option.isSome_iff_exists.mp ha
    unfold DistARangeOpRWP
    rw [ht]
    rfl
  · intro e hl hr
    obtain ⟨lp, hlp⟩ := (isDistT_eq_true_iff _).mp hl
    obtain ⟨rp, hrp⟩ := (isDistT_eq_true_iff _).mp hr
    unfold DistEWBinOpRWP
    rw [hlp, hrp]
    rfl
  · intro r hi
    obtain ⟨ip, hip⟩ := (isDistT_eq_true_iff _).mp hi
    unfold DistReductionOpRWP
    rw [hip]
    rfl

/-- Witness for the amended C4, at the example arange, ewbin and
reduction. -/
theorem claim4_distinfo_rank_amended_witness :
    exARange.team.isSome = true ∧
    (DistARangeOpRWP exARange).map
        (fun out => (out.info.rank, rankOfType out.resTy)) = some (1, 1) ∧
    isDistT exEWBinBoth.lhsTy = true ∧
    (DistEWBinOpRWP exEWBinBoth).map (fun out => out.info.rank) = some 1 ∧
    isDistT exReduction.inputTy = true ∧
    (DistReductionOpRWP exReduction).map
        (fun out => (out.info.rank, rankOfType out.resTy)) = some (1, 0) :=
  ⟨rfl, claim4_distinfo_rank_amended.1 exARange rfl, rfl,
   claim4_distinfo_rank_amended.2.1 exEWBinBoth rfl rfl, rfl,
   claim4_distinfo_rank_amended.2.2 exReduction rfl⟩

/-- C5: on a program with no team-bearing op and no distributed-tensor-typed
value, every rewrite rule returns no-match on every op, and running the pass
is the identity. -/
theorem claim5_noop_on_nondistributed (p : List Op)
    (h : p.all distFree = true) :
    (∀ o ∈ p, rewriteOp o = none) ∧ runPass p = p := by
  have hany := any_anyMatch_false_of_distFree p h
  refine ⟨?_, runPass_id_of_no_match p hany⟩
  intro o ho
  rw [List.all_eq_true] at h
  exact rewriteOp_none_of_no_match o (distFree_no_match o (h o ho))

/-- Witness for C5: a four-op local program (team-less arange, local ewbin,
local reduction, local extract) passes through unchanged. -/
theorem claim5_noop_on_nondistributed_witness :
    exLocalProgram.all distFree = true ∧
    rewriteOp (Op.arange exARangeNoTeam) = none ∧
    runPass exLocalProgram = exLocalProgram :=
  ⟨by decide,
   (claim5_noop_on_nondistributed exLocalProgram (by decide)).1
     (Op.arange exARangeNoTeam) (by decide),
   (claim5_noop_on_nondistributed exLocalProgram (by decide)).2⟩

/-- C6: the elementwise-binary rule matches exactly when both operands are
DistTensorType, and an ewbin with one (or no) distributed operand is left
unchanged by the pass. -/
theorem claim6_ewbin_match_iff :
    (∀ e : EWBinOpS, (DistEWBinOpRWP e).isSome
        = (isDistT e.lhsTy && isDistT e.rhsTy)) ∧
    (∀ e : EWBinOpS, (isDistT e.lhsTy && isDistT e.rhsTy) = false →
      runPass [Op.ewbin e] = [Op.ewbin e]) := by
  constructor
  · intro e
    unfold DistEWBinOpRWP
    cases e.lhsTy <;> cases e.rhsTy <;> rfl
  · intro e h
    apply runPass_id_of_no_match
    simp [anyMatch, h]

/-- Witness for C6: an ewbin with exactly one distributed operand is left
as-is. -/
theorem claim6_ewbin_match_iff_witness :
    (isDistT exEWBinOneDist.lhsTy && isDistT exEWBinOneDist.rhsTy) = false ∧
    runPass [Op.ewbin exEWBinOneDist] = [Op.ewbin exEWBinOneDist] :=
  ⟨by decide, claim6_ewbin_match_iff.2 exEWBinOneDist (by decide)⟩

/-- C7: the arange rule matches exactly when the op carries a team operand;
a team-less arange is left untouched by the pass, and a team-bearing arange
is fully rewritten in one step to its replacement subgraph, whose result is
DistTensor-typed. -/
theorem claim7_arange_match_iff :
    (∀ a : ARangeOpS, (DistARangeOpRWP a).isSome = a.team.isSome) ∧
    (∀ a : ARangeOpS, a.team = none →
      runPass [Op.arange a] = [Op.arange a]) ∧
    (∀ (a : ARangeOpS) (out : ARangeRewriteOut),
      DistARangeOpRWP a = some out →
        runPass [Op.arange a] = out.newOps ∧ isDistT out.resTy = true) := by
  refine ⟨?_, ?_, ?_⟩
  · intro a
    unfold DistARangeOpRWP
    cases a.team <;> rfl
  · intro a ht
    apply runPass_id_of_no_match
    simp [anyMatch, ht]
  · intro a out h
    constructor
    · apply runPass_single_rewrite
      show rewriteOp (Op.arange a) = some out.newOps
      have hr : rewriteOp (Op.arange a)
          = (DistARangeOpRWP a).map (·.newOps) := rfl
      rw [hr, h, Option.map_some']
    · unfold DistARangeOpRWP at h
      split at h
      · exact absurd h (by simp)
      · obtain rfl := Option.some.inj h
        rfl

/-- Witness for C7: the team-less example arange is untouched; the
team-bearing example arange is rewritten in one step. -/
theorem claim7_arange_match_iff_witness :
    exARangeNoTeam.team = none ∧
    runPass [Op.arange exARangeNoTeam] = [Op.arange exARangeNoTeam] ∧
    DistARangeOpRWP exARange = some exARangeOut ∧
    runPass [Op.arange exARange] = exARangeOut.newOps ∧
    isDistT exARangeOut.resTy = true :=
  ⟨rfl, claim7_arange_match_iff.2.1 exARangeNoTeam rfl, by decide,
   (claim7_arange_match_iff.2.2 exARange exARangeOut (by decide)).1,
   (claim7_arange_match_iff.2.2 exARange exARangeOut (by decide)).2⟩

/-- C8: for every nonzero step the global element count computed for the
range-generation rewrite equals max(0, ceil((stop-start)/step)), the count of
the half-open arithmetic progression, for ascending and descending ranges
alike. -/
theorem claim8_count_formula (start stop step : Int) (h : step ≠ 0) :
    createCountARange start stop step
      = max 0 ⌈((stop - start : Int) : ℚ) / ((step : Int) : ℚ)⌉ := by
  unfold createCountARange
  rcases lt_trichotomy step 0 with hneg | hz | hpos
  · simp only [if_pos hneg]
    have hq : ((stop - start : Int) : ℚ) / ((step : Int) : ℚ)
        = ((start - stop : Int) : ℚ) / ((-step : Int) : ℚ) := by
      push_cast
      rw [← neg_div_neg_eq]
      ring_nf
    rw [hq, ceil_ediv_pos _ _ (by omega)]
  · exact absurd hz h
  · simp only [if_neg (by omega : ¬ step < 0)]
    rw [ceil_ediv_pos _ _ hpos]

/-- Witness for C8: the test arange 0..10 step 2 (5 elements). -/
theorem claim8_count_formula_witness :
    (2 : Int) ≠ 0 ∧
    createCountARange 0 10 2
      = max 0 ⌈((10 - 0 : Int) : ℚ) / ((2 : Int) : ℚ)⌉ :=
  ⟨by decide, claim8_count_formula 0 10 2 (by decide)⟩

/-- C9: whenever the arange rule fires, the re-issued local arange appears in
the replacement subgraph, carries no team operand, and its result type is
the dynamically-sized rank-1 i64 PTensorType — regardless of the element
type the original op requested. -/
theorem claim9_local_arange_type (a : ARangeOpS) (out : ARangeRewriteOut)
    (h : DistARangeOpRWP a = some out) :
    out.localARange.team = none ∧
    out.localARange.resTy = .ptensorT ⟨⟨[-1], DType.i64⟩, false, false⟩ ∧
    Op.arange out.localARange ∈ out.newOps := by
  unfold DistARangeOpRWP at h
  split at h
  · exact absurd h (by simp)
  · obtain rfl := Option.some.inj h
    refine ⟨rfl, rfl, ?_⟩
    simp [createCountARangeOps]

/-- Witness for C9, at the team-bearing example arange. -/
theorem claim9_local_arange_type_witness :
    DistARangeOpRWP exARange = some exARangeOut ∧
    exARangeOut.localARange.team = none ∧
    exARangeOut.localARange.resTy
      = .ptensorT ⟨⟨[-1], DType.i64⟩, false, false⟩ ∧
    Op.arange exARangeOut.localARange ∈ exARangeOut.newOps :=
  ⟨by decide,
   (claim9_local_arange_type exARange exARangeOut (by decide)).1,
   (claim9_local_arange_type exARange exARangeOut (by decide)).2.1,
   (claim9_local_arange_type exARange exARangeOut (by decide)).2.2⟩

/-- C10: for every pair of distributed operands, the re-issued local ewbin's
result type is taken verbatim from the unwrapped left operand's local tensor
type, the output DistInfo's global shape and team come from the left operand
only, and varying the right operand's type changes neither the local result
type, nor the DistInfo, nor the output type. -/
theorem claim10_ewbin_lhs_only (opAttr : Nat) (lp rp rp2 : PTensorType)
    (resTy resTy2 : MlirType) :
    ((DistEWBinOpRWP ⟨opAttr, .distT lp, .distT rp, resTy⟩).map
        (fun out => out.localEWBin.resTy) = some (createGetLocalTy lp)) ∧
    ((DistEWBinOpRWP ⟨opAttr, .distT lp, .distT rp, resTy⟩).map
        (fun out => out.info)
        = some ⟨1, .constShape lp.rtensor.shape, .teamOfOperand 0⟩) ∧
    ((DistEWBinOpRWP ⟨opAttr, .distT lp, .distT rp, resTy⟩).map
        (fun out => out.resTy)
        = some (.distT ⟨lp.rtensor, false, false⟩)) ∧
    ((DistEWBinOpRWP ⟨opAttr, .distT lp, .distT rp, resTy⟩).map
        (fun out => (out.localEWBin.resTy, out.info, out.resTy))
        = (DistEWBinOpRWP ⟨opAttr, .distT lp, .distT rp2, resTy2⟩).map
            (fun out => (out.localEWBin.resTy, out.info, out.resTy))) :=
  ⟨rfl, rfl, rfl, rfl⟩

end PTensorDist
